import Mathlib

/-!
Verification of the port-knocking engine of `raykavin/go-port-knocking`.

The repository contains two near-duplicate server variants and one client:
* the hit-count variant (`internal/adapter/http/http.go`, `KnockStep`,
  `ClientState`, `processKnock`, `server`), where each step of the knock
  sequence is a port together with a required number of consecutive hits;
* the single-hit variant (same file, second `main` package), where the knock
  sequence is a plain list of ports and each port is knocked once;
* the knock client (`client.go`), which dials a fixed flat list of ports.

The Go code is embedded shallowly: machine integers become `Int`/`Nat`
(counters start at zero and are only incremented or reset; where counter
overflow matters — unbounded runs against a non-positive per-step count —
a second model keeps the hit counter as an `Int` reduced by explicit 64-bit
two's-complement wraparound, `wrap64`), `time.Time` timestamps and durations
become `Int`, the global `clients map[string]*ClientState` guarded by
`mutex` becomes a function `String → Option ClientState` threaded through
`processKnock`, and the globals `knockSequence`/`timeout` become parameters.
Each call of `processKnock` is given the single instant `now` standing for
the `time.Now()` calls it performs.  The observable outcome of a call is
read off the code path it takes (which log line / grant it reaches).  The
client's `knock` is modelled with its full error behaviour: a dial error is
ignored, while a `Close` error panics and aborts the client.
-/

namespace PortKnocking

/-- `type KnockStep struct { Port int; Count int }` of the hit-count server
variant: one step of the knock sequence. -/
structure KnockStep where
  Port : Int
  Count : Int
deriving DecidableEq

/-- `type ClientState struct { StepIndex int; HitCount int; LastKnock time.Time }`
of the hit-count server variant.  `StepIndex` and `HitCount` start at zero and
are only ever incremented or reset to zero in the program, so they are
embedded as `Nat`; `LastKnock` is a timestamp embedded as `Int`. -/
structure ClientState where
  StepIndex : Nat
  HitCount : Nat
  LastKnock : Int
deriving DecidableEq

/-- The observable outcome of one `processKnock` call, read off the code path
the call takes:
* `Progressed` — matching port, step not yet complete (`Knock OK` log only);
* `StepComplete` — matching port, step completed, sequence not yet complete;
* `SequenceComplete` — matching port completing the last step
  (`ACCESS GRANTED` log, entry deleted);
* `Mismatch` — non-matching port (`Invalid knock` log, entry deleted);
* `Dropped` — the defensive `state.StepIndex >= len(knockSequence)` guard
  fired: the entry is deleted and the call returns without evaluating the
  knock. -/
inductive Outcome
  | Progressed
  | StepComplete
  | SequenceComplete
  | Mismatch
  | Dropped
deriving DecidableEq

/-- The `clients map[string]*ClientState` of the hit-count variant. -/
abbrev Clients := String → Option ClientState

/-- The hardcoded `knockSequence` of the hit-count server variant. -/
def knockSequence : List KnockStep := [⟨7001, 3⟩, ⟨8002, 1⟩, ⟨9003, 2⟩]

/-- The hardcoded `timeout` of the hit-count server variant
(`1 * time.Second`), in seconds. -/
def timeout : Int := 1

/-- The state `processKnock` works on after its lookup-and-reset prologue:
`state, ok := clients[ip]; if !ok || time.Since(state.LastKnock) > timeout {
state = &ClientState{} }`.  A missing or expired entry is replaced by the
zero-valued fresh state. -/
def resolveState (tmo now : Int) : Option ClientState → ClientState
  | none => ⟨0, 0, 0⟩
  | some s => if now - s.LastKnock > tmo then ⟨0, 0, 0⟩ else s

/-- `processKnock` of the hit-count server variant (http.go lines 477-531).
`seq` and `tmo` stand for the globals `knockSequence` and `timeout`; `now`
stands for the instant of the call.  Mirrors the Go code: lookup, fresh start
on absence or expiry, the defensive `state.StepIndex >= len(knockSequence)`
guard (delete and return), then the matching-port branch with its hit-count
increment, step advance and sequence completion, and the mismatch branch
(delete).  The `getD` default is never reached: the guard has already
ensured `state.StepIndex < seq.length`. -/
def processKnock (seq : List KnockStep) (tmo : Int) (clients : Clients)
    (ip : String) (port : Int) (now : Int) : Clients × Outcome :=
  let state := resolveState tmo now (clients ip)
  if state.StepIndex ≥ seq.length then
    (fun k => if k = ip then none else clients k, Outcome.Dropped)
  else
    let step := seq.getD state.StepIndex ⟨0, 0⟩
    if port = step.Port then
      if (state.HitCount + 1 : Int) = step.Count then
        if state.StepIndex + 1 = seq.length then
          (fun k => if k = ip then none else clients k, Outcome.SequenceComplete)
        else
          (fun k => if k = ip then some ⟨state.StepIndex + 1, 0, now⟩ else clients k,
           Outcome.StepComplete)
      else
        (fun k => if k = ip then some ⟨state.StepIndex, state.HitCount + 1, now⟩ else clients k,
         Outcome.Progressed)
    else
      (fun k => if k = ip then none else clients k, Outcome.Mismatch)

/-- Sequential application of `processKnock` to a list of knocks
`(port, now)` from one address, collecting the outcome of each call. -/
def runKnocks (seq : List KnockStep) (tmo : Int) (clients : Clients)
    (ip : String) : List (Int × Int) → Clients × List Outcome
  | [] => (clients, [])
  | (port, now) :: rest =>
    ((runKnocks seq tmo (processKnock seq tmo clients ip port now).1 ip rest).1,
     (processKnock seq tmo clients ip port now).2 ::
       (runKnocks seq tmo (processKnock seq tmo clients ip port now).1 ip rest).2)

/-- Sequential application of `processKnock` to a list of knocks
`(ip, port, now)` from arbitrary interleaved addresses. -/
def runAll (seq : List KnockStep) (tmo : Int) (clients : Clients) :
    List (String × Int × Int) → Clients × List Outcome
  | [] => (clients, [])
  | (ip, port, now) :: rest =>
    ((runAll seq tmo (processKnock seq tmo clients ip port now).1 rest).1,
     (processKnock seq tmo clients ip port now).2 ::
       (runAll seq tmo (processKnock seq tmo clients ip port now).1 rest).2)

end PortKnocking

namespace PortKnocking

-- Shared helper lemmas about the state-resolution prologue and the four
-- exits of `processKnock`.

/-- No resident entry: the prologue yields the fresh zero state. -/
theorem resolveState_none {clients : Clients} {ip : String} (tmo now : Int)
    (h : clients ip = none) :
    resolveState tmo now (clients ip) = ⟨0, 0, 0⟩ := by
  rw [h]; rfl

/-- Resident entry within the timeout: the prologue keeps it. -/
theorem resolveState_live {clients : Clients} {ip : String} {st : ClientState}
    (tmo now : Int) (h : clients ip = some st)
    (hlive : now - st.LastKnock ≤ tmo) :
    resolveState tmo now (clients ip) = st := by
  rw [h]; unfold resolveState
  exact if_neg (not_lt.mpr hlive)

/-- Resident entry past the timeout: the prologue resets to the fresh
zero state. -/
theorem resolveState_expired {clients : Clients} {ip : String} {st : ClientState}
    (tmo now : Int) (h : clients ip = some st)
    (hexp : now - st.LastKnock > tmo) :
    resolveState tmo now (clients ip) = ⟨0, 0, 0⟩ := by
  rw [h]; unfold resolveState
  exact if_pos hexp

/-- `processKnock` leaves the entry of every address other than the
knocking one unchanged. -/
theorem processKnock_other_key (seq : List KnockStep) (tmo : Int)
    (clients : Clients) (ip : String) (port : Int) (now : Int)
    (k : String) (hk : k ≠ ip) :
    (processKnock seq tmo clients ip port now).1 k = clients k := by
  unfold processKnock
  dsimp only
  split_ifs <;> simp [hk]

/-- Exit of `processKnock` through the defensive guard: entry deleted,
knock dropped. -/
theorem processKnock_dropped {clients : Clients} {ip : String} {st : ClientState}
    (seq : List KnockStep) (tmo : Int) (port now : Int)
    (hst : resolveState tmo now (clients ip) = st)
    (hguard : st.StepIndex ≥ seq.length) :
    processKnock seq tmo clients ip port now =
      (fun k => if k = ip then none else clients k, Outcome.Dropped) := by
  unfold processKnock
  dsimp only
  rw [hst, if_pos hguard]

/-- Exit of `processKnock` through the matching-port branch with the step
still incomplete: hit count incremented, `Progressed`. -/
theorem processKnock_progressed {clients : Clients} {ip : String} {st : ClientState}
    (seq : List KnockStep) (tmo : Int) (port now : Int)
    (hst : resolveState tmo now (clients ip) = st)
    (hguard : st.StepIndex < seq.length)
    (hport : port = (seq.getD st.StepIndex ⟨0, 0⟩).Port)
    (hcount : (st.HitCount + 1 : Int) ≠ (seq.getD st.StepIndex ⟨0, 0⟩).Count) :
    processKnock seq tmo clients ip port now =
      (fun k => if k = ip then some ⟨st.StepIndex, st.HitCount + 1, now⟩ else clients k,
       Outcome.Progressed) := by
  unfold processKnock
  dsimp only
  rw [hst, if_neg (Nat.not_le.mpr hguard), if_pos hport, if_neg hcount]

/-- Exit of `processKnock` through the matching-port branch completing the
current, non-final step: step advanced, hit count reset, `StepComplete`. -/
theorem processKnock_stepComplete {clients : Clients} {ip : String} {st : ClientState}
    (seq : List KnockStep) (tmo : Int) (port now : Int)
    (hst : resolveState tmo now (clients ip) = st)
    (hguard : st.StepIndex < seq.length)
    (hport : port = (seq.getD st.StepIndex ⟨0, 0⟩).Port)
    (hcount : (st.HitCount + 1 : Int) = (seq.getD st.StepIndex ⟨0, 0⟩).Count)
    (hlast : st.StepIndex + 1 ≠ seq.length) :
    processKnock seq tmo clients ip port now =
      (fun k => if k = ip then some ⟨st.StepIndex + 1, 0, now⟩ else clients k,
       Outcome.StepComplete) := by
  unfold processKnock
  dsimp only
  rw [hst, if_neg (Nat.not_le.mpr hguard), if_pos hport, if_pos hcount, if_neg hlast]

/-- Exit of `processKnock` through the matching-port branch completing the
final step: entry deleted, `SequenceComplete`. -/
theorem processKnock_sequenceComplete {clients : Clients} {ip : String} {st : ClientState}
    (seq : List KnockStep) (tmo : Int) (port now : Int)
    (hst : resolveState tmo now (clients ip) = st)
    (hguard : st.StepIndex < seq.length)
    (hport : port = (seq.getD st.StepIndex ⟨0, 0⟩).Port)
    (hcount : (st.HitCount + 1 : Int) = (seq.getD st.StepIndex ⟨0, 0⟩).Count)
    (hlast : st.StepIndex + 1 = seq.length) :
    processKnock seq tmo clients ip port now =
      (fun k => if k = ip then none else clients k, Outcome.SequenceComplete) := by
  unfold processKnock
  dsimp only
  rw [hst, if_neg (Nat.not_le.mpr hguard), if_pos hport, if_pos hcount, if_pos hlast]

/-- Exit of `processKnock` through the mismatch branch: entry deleted,
`Mismatch`. -/
theorem processKnock_mismatch {clients : Clients} {ip : String} {st : ClientState}
    (seq : List KnockStep) (tmo : Int) (port now : Int)
    (hst : resolveState tmo now (clients ip) = st)
    (hguard : st.StepIndex < seq.length)
    (hport : port ≠ (seq.getD st.StepIndex ⟨0, 0⟩).Port) :
    processKnock seq tmo clients ip port now =
      (fun k => if k = ip then none else clients k, Outcome.Mismatch) := by
  unfold processKnock
  dsimp only
  rw [hst, if_neg (Nat.not_le.mpr hguard), if_neg hport]

/-- Two starting maps whose prologue resolves the knocking address to the
same state and which agree on every other address lead `processKnock` to the
same outcome and pointwise the same resulting map. -/
theorem processKnock_resolve_congr (seq : List KnockStep) (tmo : Int)
    (clients clients2 : Clients) (ip : String) (port now : Int)
    (h0 : resolveState tmo now (clients ip) = resolveState tmo now (clients2 ip))
    (hrest : ∀ k, k ≠ ip → clients2 k = clients k) :
    (processKnock seq tmo clients ip port now).2 =
      (processKnock seq tmo clients2 ip port now).2 ∧
    ∀ k, (processKnock seq tmo clients ip port now).1 k =
      (processKnock seq tmo clients2 ip port now).1 k := by
  unfold processKnock
  dsimp only
  rw [h0]
  split_ifs <;> refine ⟨rfl, fun k => ?_⟩ <;> by_cases hk : k = ip <;>
    simp [hk, hrest]

end PortKnocking

namespace PortKnocking

-- Claim theorems.

/-- C5: for every tracker map state and every `processKnock(ip, port)` call,
the resident entry of every address other than `ip` is left unchanged by the
call; only the entry for `ip` may be created, mutated or deleted, so
interleaved knocks from two distinct addresses never affect each other's
progress. -/
theorem claim_C5_address_isolation (seq : List KnockStep) (tmo : Int)
    (clients : Clients) (ip : String) (port : Int) (now : Int)
    (k : String) (hk : k ≠ ip) :
    (processKnock seq tmo clients ip port now).1 k = clients k :=
  processKnock_other_key seq tmo clients ip port now k hk

/-- Witness for C5 at a concrete input: a knock from address `a` leaves the
entry of address `b` unchanged. -/
theorem claim_C5_address_isolation_witness :
    ("b" : String) ≠ "a" ∧
    (processKnock knockSequence 5
        (fun k => if k = "b" then some ⟨1, 0, 0⟩ else none) "a" 7001 0).1 "b" =
      (fun k => if k = "b" then some ⟨1, 0, 0⟩ else none : Clients) "b" :=
  ⟨by decide,
   claim_C5_address_isolation knockSequence 5
     (fun k => if k = "b" then some ⟨1, 0, 0⟩ else none) "a" 7001 0 "b" (by decide)⟩

/-- C2: for every resident, non-expired state of address `ip`, at any step
index and hit count, a knock on a port different from the current step's
expected port returns normally with outcome `Mismatch` and removes the
entry of `ip` entirely (the whole resulting map is the old map with `ip`
deleted, so the next knock from `ip` is evaluated from a fresh start). -/
theorem claim_C2_mismatch_resets (seq : List KnockStep) (tmo : Int)
    (clients : Clients) (ip : String) (port now : Int) (st : ClientState)
    (hres : clients ip = some st)
    (hlive : now - st.LastKnock ≤ tmo)
    (hidx : st.StepIndex < seq.length)
    (hport : port ≠ (seq.getD st.StepIndex ⟨0, 0⟩).Port) :
    (processKnock seq tmo clients ip port now).2 = Outcome.Mismatch ∧
    (processKnock seq tmo clients ip port now).1 ip = none ∧
    (processKnock seq tmo clients ip port now).1 =
      fun k => if k = ip then none else clients k := by
  have h := processKnock_mismatch seq tmo port now
    (resolveState_live tmo now hres hlive) hidx hport
  rw [h]
  exact ⟨rfl, by simp, rfl⟩

/-- Witness for C2 at a concrete input: address `a` is resident at step 2
(expected port 9003) with one hit; a knock on 7001 yields `Mismatch` and
deletes the entry. -/
theorem claim_C2_mismatch_resets_witness :
    ((fun k => if k = "a" then some ⟨2, 1, 0⟩ else none : Clients) "a" =
        some ⟨2, 1, 0⟩) ∧
    ((3 : Int) - 0 ≤ 5) ∧ (2 < knockSequence.length) ∧
    ((7001 : Int) ≠ (knockSequence.getD 2 ⟨0, 0⟩).Port) ∧
    (processKnock knockSequence 5
        (fun k => if k = "a" then some ⟨2, 1, 0⟩ else none) "a" 7001 3).2 =
      Outcome.Mismatch ∧
    (processKnock knockSequence 5
        (fun k => if k = "a" then some ⟨2, 1, 0⟩ else none) "a" 7001 3).1 "a" =
      none :=
  ⟨by decide, by decide, by decide, by decide,
   (claim_C2_mismatch_resets knockSequence 5
      (fun k => if k = "a" then some ⟨2, 1, 0⟩ else none) "a" 7001 3 ⟨2, 1, 0⟩
      (by decide) (by decide) (by decide) (by decide)).1,
   (claim_C2_mismatch_resets knockSequence 5
      (fun k => if k = "a" then some ⟨2, 1, 0⟩ else none) "a" 7001 3 ⟨2, 1, 0⟩
      (by decide) (by decide) (by decide) (by decide)).2.1⟩

/-- C7 counterexample: a resident, non-expired state of address `a` with
`StepIndex = 3 = knockSequence.length` is NOT treated as absent and
re-evaluated: the knock on the first step's port 7001 is dropped (guard
path), the entry is deleted, and no fresh progress `hitCount = 1` is
recorded — contradicting the claim that the same incoming knock is
evaluated from a fresh start. -/
theorem claim_C7_counterexample :
    (processKnock knockSequence 5
        (fun k => if k = "a" then some ⟨3, 0, 0⟩ else none) "a" 7001 0).2 =
      Outcome.Dropped ∧
    (processKnock knockSequence 5
        (fun k => if k = "a" then some ⟨3, 0, 0⟩ else none) "a" 7001 0).1 "a" =
      none ∧
    (processKnock knockSequence 5
        (fun k => if k = "a" then some ⟨3, 0, 0⟩ else none) "a" 7001 0).1 "a" ≠
      some ⟨0, 1, 0⟩ ∧
    (processKnock knockSequence 5
        (fun k => if k = "a" then some ⟨3, 0, 0⟩ else none) "a" 7001 0).2 ≠
      Outcome.Progressed := by
  decide

/-- C7 amended: if `processKnock` reads a resident, non-expired state with
`stepIndex ≥ len(sequence)`, the defensive guard deletes the entry and
returns without evaluating the knock (the incoming knock is dropped, not
re-evaluated from a fresh start); only the NEXT knock from the address then
starts from `stepIndex = 0, hitCount = 0`, since no entry remains. -/
theorem claim_C7_guard_drops_knock (seq : List KnockStep) (tmo : Int)
    (clients : Clients) (ip : String) (port now : Int) (st : ClientState)
    (hres : clients ip = some st)
    (hlive : now - st.LastKnock ≤ tmo)
    (hidx : st.StepIndex ≥ seq.length) :
    (processKnock seq tmo clients ip port now).2 = Outcome.Dropped ∧
    (processKnock seq tmo clients ip port now).1 ip = none := by
  have h := processKnock_dropped seq tmo port now
    (resolveState_live tmo now hres hlive) hidx
  rw [h]
  exact ⟨rfl, by simp⟩

/-- Witness for the amended C7 at a concrete input. -/
theorem claim_C7_guard_drops_knock_witness :
    ((fun k => if k = "a" then some ⟨3, 0, 0⟩ else none : Clients) "a" =
        some ⟨3, 0, 0⟩) ∧
    ((0 : Int) - 0 ≤ 5) ∧ (3 ≥ knockSequence.length) ∧
    (processKnock knockSequence 5
        (fun k => if k = "a" then some ⟨3, 0, 0⟩ else none) "a" 7001 0).2 =
      Outcome.Dropped ∧
    (processKnock knockSequence 5
        (fun k => if k = "a" then some ⟨3, 0, 0⟩ else none) "a" 7001 0).1 "a" =
      none :=
  ⟨by decide, by decide, by decide,
   (claim_C7_guard_drops_knock knockSequence 5
      (fun k => if k = "a" then some ⟨3, 0, 0⟩ else none) "a" 7001 0 ⟨3, 0, 0⟩
      (by decide) (by decide) (by decide)).1,
   (claim_C7_guard_drops_knock knockSequence 5
      (fun k => if k = "a" then some ⟨3, 0, 0⟩ else none) "a" 7001 0 ⟨3, 0, 0⟩
      (by decide) (by decide) (by decide)).2⟩

/-- C3: a resident state whose last knock lies strictly more than the
timeout in the past is treated exactly as if no state existed: `processKnock`
produces the same outcome and pointwise the same map as on the map with the
entry removed.  Moreover (Scenario 3, sequence starting with
`{7001, hits: 3}` and timeout 5): knocking 7001 at `t = 0` and again at
`t = 6` leaves `hitCount = 1`, not 2, while knocking again at `t = 5`
(elapsed equal to the timeout) still counts, leaving `hitCount = 2`. -/
theorem claim_C3_timeout_means_fresh_start (seq : List KnockStep) (tmo : Int)
    (clients : Clients) (ip : String) (port now : Int) (st : ClientState)
    (hres : clients ip = some st)
    (hexp : now - st.LastKnock > tmo) :
    ((processKnock seq tmo clients ip port now).2 =
        (processKnock seq tmo (fun k => if k = ip then none else clients k)
          ip port now).2 ∧
      ∀ k, (processKnock seq tmo clients ip port now).1 k =
        (processKnock seq tmo (fun k => if k = ip then none else clients k)
          ip port now).1 k) ∧
    (runKnocks knockSequence 5 (fun _ => none) "a" [(7001, 0), (7001, 6)]).1 "a" =
      some ⟨0, 1, 6⟩ ∧
    (runKnocks knockSequence 5 (fun _ => none) "a" [(7001, 0), (7001, 5)]).1 "a" =
      some ⟨0, 2, 5⟩ := by
  refine ⟨?_, by decide, by decide⟩
  refine processKnock_resolve_congr seq tmo clients _ ip port now ?_ ?_
  · rw [resolveState_expired tmo now hres hexp]
    simp [resolveState]
  · intro k hk
    simp [hk]

/-- Witness for C3 at a concrete input: address `a` resident at step 2 with
`lastKnock = 0`, next knock at `now = 7` with timeout 5 — outcome and the
entry of `a` coincide with those of the run on the map without `a`. -/
theorem claim_C3_timeout_means_fresh_start_witness :
    ((fun k => if k = "a" then some ⟨2, 1, 0⟩ else none : Clients) "a" =
        some ⟨2, 1, 0⟩) ∧
    ((7 : Int) - 0 > 5) ∧
    (processKnock knockSequence 5
        (fun k => if k = "a" then some ⟨2, 1, 0⟩ else none) "a" 7001 7).2 =
      (processKnock knockSequence 5
          (fun k => if k = "a" then none
            else (fun k2 => if k2 = "a" then some ⟨2, 1, 0⟩ else none) k)
          "a" 7001 7).2 ∧
    (processKnock knockSequence 5
        (fun k => if k = "a" then some ⟨2, 1, 0⟩ else none) "a" 7001 7).1 "a" =
      (processKnock knockSequence 5
          (fun k => if k = "a" then none
            else (fun k2 => if k2 = "a" then some ⟨2, 1, 0⟩ else none) k)
          "a" 7001 7).1 "a" :=
  ⟨by decide, by decide,
   (claim_C3_timeout_means_fresh_start knockSequence 5
      (fun k => if k = "a" then some ⟨2, 1, 0⟩ else none) "a" 7001 7 ⟨2, 1, 0⟩
      (by decide) (by decide)).1.1,
   (claim_C3_timeout_means_fresh_start knockSequence 5
      (fun k => if k = "a" then some ⟨2, 1, 0⟩ else none) "a" 7001 7 ⟨2, 1, 0⟩
      (by decide) (by decide)).1.2 "a"⟩

/-- C1 (Scenario 1): for every address `A` with no resident state and any
knock instants each within the timeout (5) of the previous one, knocking
`7001, 7001, 7001, 8002, 9003, 9003` — the exact ports and hit counts of the
configured sequence `[{7001, 3}, {8002, 1}, {9003, 2}]` in order — produces
the outcome trace `Progressed, Progressed, StepComplete, StepComplete,
Progressed, SequenceComplete`, with exactly one `SequenceComplete`, fired on
the final knock and on no other, after which `A` has no resident entry in
the tracker map. -/
theorem claim_C1_exact_sequence_completes (clients : Clients) (A : String)
    (t0 t1 t2 t3 t4 t5 : Int)
    (h0 : clients A = none)
    (g1 : t1 - t0 ≤ 5) (g2 : t2 - t1 ≤ 5) (g3 : t3 - t2 ≤ 5)
    (g4 : t4 - t3 ≤ 5) (g5 : t5 - t4 ≤ 5) :
    (runKnocks knockSequence 5 clients A
        [(7001, t0), (7001, t1), (7001, t2), (8002, t3), (9003, t4), (9003, t5)]).2 =
      [Outcome.Progressed, Outcome.Progressed, Outcome.StepComplete,
       Outcome.StepComplete, Outcome.Progressed, Outcome.SequenceComplete] ∧
    (runKnocks knockSequence 5 clients A
        [(7001, t0), (7001, t1), (7001, t2), (8002, t3), (9003, t4), (9003, t5)]).1 A =
      none := by
  simp [runKnocks, processKnock, resolveState, knockSequence, h0,
    not_lt.mpr g1, not_lt.mpr g2, not_lt.mpr g3, not_lt.mpr g4, not_lt.mpr g5]

/-- Witness for C1 at a concrete input: empty tracker, address `a`, knocks
at instants 0, 1, 2, 3, 4, 5. -/
theorem claim_C1_exact_sequence_completes_witness :
    ((fun _ => none : Clients) "a" = none) ∧
    ((1 : Int) - 0 ≤ 5) ∧ ((2 : Int) - 1 ≤ 5) ∧ ((3 : Int) - 2 ≤ 5) ∧
    ((4 : Int) - 3 ≤ 5) ∧ ((5 : Int) - 4 ≤ 5) ∧
    (runKnocks knockSequence 5 (fun _ => none) "a"
        [(7001, 0), (7001, 1), (7001, 2), (8002, 3), (9003, 4), (9003, 5)]).2 =
      [Outcome.Progressed, Outcome.Progressed, Outcome.StepComplete,
       Outcome.StepComplete, Outcome.Progressed, Outcome.SequenceComplete] ∧
    (runKnocks knockSequence 5 (fun _ => none) "a"
        [(7001, 0), (7001, 1), (7001, 2), (8002, 3), (9003, 4), (9003, 5)]).1 "a" =
      none :=
  ⟨rfl, by decide, by decide, by decide, by decide, by decide,
   (claim_C1_exact_sequence_completes (fun _ => none) "a" 0 1 2 3 4 5 rfl
      (by decide) (by decide) (by decide) (by decide) (by decide)).1,
   (claim_C1_exact_sequence_completes (fun _ => none) "a" 0 1 2 3 4 5 rfl
      (by decide) (by decide) (by decide) (by decide) (by decide)).2⟩

end PortKnocking

namespace PortKnocking

/-- The resident-state invariant of the tracker map: the step index points
into the sequence (`stepIndex < len(knockSequence)`), and the hit count lies
in `0 .. currentStep.requiredHits - 1` (the lower bound is carried by the
`Nat` type of `HitCount`). -/
def StateInv (seq : List KnockStep) (st : ClientState) : Prop :=
  st.StepIndex < seq.length ∧
  (st.HitCount : Int) ≤ (seq.getD st.StepIndex ⟨0, 0⟩).Count - 1

instance (seq : List KnockStep) (st : ClientState) :
    Decidable (StateInv seq st) := by
  unfold StateInv; infer_instance

/-- An in-range `getD` access returns an element of the list. -/
theorem getD_mem_of_lt {seq : List KnockStep} {i : Nat} (h : i < seq.length) :
    seq.getD i ⟨0, 0⟩ ∈ seq := by
  rw [List.getD_eq_getElem _ _ h]; exact List.getElem_mem h

/-- The state produced by the lookup-and-reset prologue satisfies the
hit-count bound of `StateInv` whenever its step index is in range: a fresh
state has `HitCount = 0` and every step has `Count ≥ 1`, and a live resident
state satisfies the bound by the map invariant. -/
theorem resolveState_hit_bound (seq : List KnockStep) (tmo now : Int)
    (o : Option ClientState)
    (hpos : ∀ s ∈ seq, 1 ≤ s.Count)
    (hinv : ∀ st, o = some st → StateInv seq st)
    (hguard : (resolveState tmo now o).StepIndex < seq.length) :
    ((resolveState tmo now o).HitCount : Int) ≤
      (seq.getD (resolveState tmo now o).StepIndex ⟨0, 0⟩).Count - 1 := by
  cases o with
  | none =>
    simp only [resolveState] at hguard ⊢
    have := hpos _ (getD_mem_of_lt hguard)
    omega
  | some s =>
    simp only [resolveState] at hguard ⊢
    split_ifs at hguard ⊢ with hex
    · dsimp only at hguard ⊢
      have := hpos _ (getD_mem_of_lt hguard)
      omega
    · exact (hinv s rfl).2

/-- C4: assuming every configured step has a positive required hit count
(the data-model precondition), `processKnock` preserves the tracker
invariant: after a call, every resident state still satisfies
`stepIndex < len(knockSequence)` and `0 ≤ hitCount ≤ requiredHits - 1`.
In particular a state whose step index reaches `len(knockSequence)` is
removed within the very call that advanced it and is never left resident. -/
theorem claim_C4_resident_invariant (seq : List KnockStep) (tmo : Int)
    (clients : Clients) (ip : String) (port now : Int)
    (hpos : ∀ s ∈ seq, 1 ≤ s.Count)
    (hinv : ∀ k st, clients k = some st → StateInv seq st) :
    ∀ k st, (processKnock seq tmo clients ip port now).1 k = some st →
      StateInv seq st := by
  intro k st h
  by_cases hk : k = ip
  · subst hk
    have hb := resolveState_hit_bound seq tmo now (clients k) hpos
      (fun st2 h2 => hinv k st2 h2)
    unfold processKnock at h
    dsimp only at h
    split_ifs at h with h1 h2 h3 h4
    · simp at h
    · simp at h
    · simp at h
      subst h
      unfold StateInv
      dsimp only
      have hm := hpos _ (getD_mem_of_lt (show
        (resolveState tmo now (clients k)).StepIndex + 1 < seq.length by omega))
      exact ⟨by omega, by omega⟩
    · simp at h
      subst h
      unfold StateInv
      dsimp only
      have hb2 := hb (by omega)
      exact ⟨by omega, by omega⟩
    · simp at h
  · rw [processKnock_other_key seq tmo clients ip port now k hk] at h
    exact hinv k st h

/-- Witness for C4 at a concrete input: starting from the empty map, one
knock on 7001 leaves address `a` resident in the state
`{stepIndex 0, hitCount 1}`, which satisfies the invariant. -/
theorem claim_C4_resident_invariant_witness :
    StateInv knockSequence ⟨0, 1, 0⟩ :=
  claim_C4_resident_invariant knockSequence 5 (fun _ => none) "a" 7001 0
    (by decide) (fun k st h => Option.noConfusion h) "a" ⟨0, 1, 0⟩ (by decide)

-- The overflow-faithful model for C10.  Go's `state.HitCount++`
-- (http.go line 498) is 64-bit machine-integer arithmetic that wraps on
-- overflow; over unbounded runs this matters, so here `HitCount` is an
-- `Int` reduced by explicit two's-complement wraparound.  `StepIndex` needs
-- no wraparound: the defensive guard keeps it at most `len(knockSequence)`
-- in every reachable state, far below overflow.

/-- 64-bit two's-complement wraparound:
`wrap64 x = ((x + 2^63) mod 2^64) - 2^63`, the representative of `x` in
`[-2^63, 2^63)`, as produced by Go's `int` increment on overflow. -/
def wrap64 (x : Int) : Int :=
  (x + 9223372036854775808) % 18446744073709551616 - 9223372036854775808

/-- No wraparound inside the representable range. -/
theorem wrap64_eq_self {x : Int} (h1 : -9223372036854775808 ≤ x)
    (h2 : x < 9223372036854775808) : wrap64 x = x := by
  unfold wrap64; omega

/-- Wrapped values add congruently modulo `2^64`. -/
theorem wrap64_wrap64_add (a b : Int) :
    wrap64 (wrap64 a + b) = wrap64 (a + b) := by
  unfold wrap64; omega

/-- A value in `1 .. 2^64 - 1` does not wrap to zero. -/
theorem wrap64_ne_zero {a : Int} (h1 : 1 ≤ a)
    (h2 : a < 18446744073709551616) : wrap64 a ≠ 0 := by
  unfold wrap64; omega

/-- `ClientState` of the hit-count variant with the hit counter kept as a
wrapped 64-bit machine integer (it can go negative on overflow). -/
structure ClientStateW where
  StepIndex : Nat
  HitCount : Int
  LastKnock : Int
deriving DecidableEq

/-- The tracker map over wrapped states. -/
abbrev ClientsW := String → Option ClientStateW

/-- Lookup-and-reset prologue over wrapped states, identical in shape to
`resolveState`. -/
def resolveStateW (tmo now : Int) : Option ClientStateW → ClientStateW
  | none => ⟨0, 0, 0⟩
  | some s => if now - s.LastKnock > tmo then ⟨0, 0, 0⟩ else s

/-- `processKnock` of the hit-count variant (http.go lines 477-531) with the
`HitCount++` increment wrapped like Go's 64-bit `int`: identical to
`processKnock` except that the incremented counter is `wrap64 (HitCount + 1)`
both in the completion test and in the stored state. -/
def processKnockW (seq : List KnockStep) (tmo : Int) (clients : ClientsW)
    (ip : String) (port : Int) (now : Int) : ClientsW × Outcome :=
  let state := resolveStateW tmo now (clients ip)
  if state.StepIndex ≥ seq.length then
    (fun k => if k = ip then none else clients k, Outcome.Dropped)
  else
    let step := seq.getD state.StepIndex ⟨0, 0⟩
    if port = step.Port then
      if wrap64 (state.HitCount + 1) = step.Count then
        if state.StepIndex + 1 = seq.length then
          (fun k => if k = ip then none else clients k, Outcome.SequenceComplete)
        else
          (fun k => if k = ip then some ⟨state.StepIndex + 1, 0, now⟩ else clients k,
           Outcome.StepComplete)
      else
        (fun k => if k = ip then some ⟨state.StepIndex, wrap64 (state.HitCount + 1), now⟩
          else clients k, Outcome.Progressed)
    else
      (fun k => if k = ip then none else clients k, Outcome.Mismatch)

/-- Sequential application of `processKnockW` to a list of knocks
`(ip, port, now)`. -/
def runAllW (seq : List KnockStep) (tmo : Int) (clients : ClientsW) :
    List (String × Int × Int) → ClientsW × List Outcome
  | [] => (clients, [])
  | (ip, port, now) :: rest =>
    ((runAllW seq tmo (processKnockW seq tmo clients ip port now).1 rest).1,
     (processKnockW seq tmo clients ip port now).2 ::
       (runAllW seq tmo (processKnockW seq tmo clients ip port now).1 rest).2)

/-- One-step unfolding of `runAllW` (by `rfl`, usable without evaluating the
tail of the knock list). -/
theorem runAllW_cons (seq : List KnockStep) (tmo : Int) (clients : ClientsW)
    (ip : String) (port now : Int) (rest : List (String × Int × Int)) :
    runAllW seq tmo clients ((ip, port, now) :: rest) =
      ((runAllW seq tmo (processKnockW seq tmo clients ip port now).1 rest).1,
       (processKnockW seq tmo clients ip port now).2 ::
         (runAllW seq tmo (processKnockW seq tmo clients ip port now).1 rest).2) :=
  rfl

/-- Exit of `processKnockW` through the matching-port branch with the step
still incomplete. -/
theorem processKnockW_progressed {clients : ClientsW} {ip : String}
    {st : ClientStateW} (seq : List KnockStep) (tmo : Int) (port now : Int)
    (hst : resolveStateW tmo now (clients ip) = st)
    (hguard : st.StepIndex < seq.length)
    (hport : port = (seq.getD st.StepIndex ⟨0, 0⟩).Port)
    (hcount : wrap64 (st.HitCount + 1) ≠ (seq.getD st.StepIndex ⟨0, 0⟩).Count) :
    processKnockW seq tmo clients ip port now =
      (fun k => if k = ip then some ⟨st.StepIndex, wrap64 (st.HitCount + 1), now⟩
        else clients k, Outcome.Progressed) := by
  unfold processKnockW
  dsimp only
  rw [hst, if_neg (Nat.not_le.mpr hguard), if_pos hport, if_neg hcount]

/-- Exit of `processKnockW` through the matching-port branch completing the
final step. -/
theorem processKnockW_sequenceComplete {clients : ClientsW} {ip : String}
    {st : ClientStateW} (seq : List KnockStep) (tmo : Int) (port now : Int)
    (hst : resolveStateW tmo now (clients ip) = st)
    (hguard : st.StepIndex < seq.length)
    (hport : port = (seq.getD st.StepIndex ⟨0, 0⟩).Port)
    (hcount : wrap64 (st.HitCount + 1) = (seq.getD st.StepIndex ⟨0, 0⟩).Count)
    (hlast : st.StepIndex + 1 = seq.length) :
    processKnockW seq tmo clients ip port now =
      (fun k => if k = ip then none else clients k, Outcome.SequenceComplete) := by
  unfold processKnockW
  dsimp only
  rw [hst, if_neg (Nat.not_le.mpr hguard), if_pos hport, if_pos hcount, if_pos hlast]

/-- The prologue preserves step-index and hit-counter bounds holding for
every resident state: a fresh state has index 0 and counter 0. -/
theorem resolveStateW_bounds (tmo now : Int) (o : Option ClientStateW)
    (i : Nat) (B : Int) (hB0 : 0 ≤ B)
    (hb : ∀ st, o = some st → st.StepIndex ≤ i ∧ 0 ≤ st.HitCount ∧ st.HitCount ≤ B) :
    (resolveStateW tmo now o).StepIndex ≤ i ∧
    0 ≤ (resolveStateW tmo now o).HitCount ∧
    (resolveStateW tmo now o).HitCount ≤ B := by
  cases o with
  | none => exact ⟨Nat.zero_le i, le_refl 0, hB0⟩
  | some s =>
    simp only [resolveStateW]
    split_ifs
    · exact ⟨Nat.zero_le i, le_refl 0, hB0⟩
    · exact hb s rfl

/-- One `processKnockW` call against a sequence whose step `i` has a
non-positive `Count` neither grants access nor advances any state past step
`i`, provided no state had passed step `i` before and every resident hit
counter lies in `0 .. B` with `B + 1` still representable: the incremented
counter does not wrap, stays `≥ 1`, and never equals the non-positive
`Count`. -/
theorem processKnockW_stuck_step (seq : List KnockStep) (tmo : Int) (i : Nat)
    (hi : i < seq.length) (hneg : (seq.getD i ⟨0, 0⟩).Count ≤ 0)
    (m : ClientsW) (ip : String) (port now : Int) (B : Int)
    (hB0 : 0 ≤ B) (hB : B + 1 < 9223372036854775808)
    (hbound : ∀ k st, m k = some st →
      st.StepIndex ≤ i ∧ 0 ≤ st.HitCount ∧ st.HitCount ≤ B) :
    (processKnockW seq tmo m ip port now).2 ≠ Outcome.SequenceComplete ∧
    ∀ k st, (processKnockW seq tmo m ip port now).1 k = some st →
      st.StepIndex ≤ i ∧ 0 ≤ st.HitCount ∧ st.HitCount ≤ B + 1 := by
  obtain ⟨hRa, hRb, hRc⟩ := resolveStateW_bounds tmo now (m ip) i B hB0
    (fun st h => hbound ip st h)
  have hw : wrap64 ((resolveStateW tmo now (m ip)).HitCount + 1) =
      (resolveStateW tmo now (m ip)).HitCount + 1 :=
    wrap64_eq_self (by omega) (by omega)
  unfold processKnockW
  dsimp only
  split_ifs with h1 h2 h3 h4
  · refine ⟨by simp, fun k st h => ?_⟩
    by_cases hk : k = ip <;> simp [hk] at h
    have := hbound k st h
    exact ⟨this.1, this.2.1, by omega⟩
  · exfalso
    have he : (resolveStateW tmo now (m ip)).StepIndex = i := by omega
    rw [he, hw] at h3
    omega
  · refine ⟨by simp, fun k st h => ?_⟩
    by_cases hk : k = ip <;> simp [hk] at h
    · subst h
      have hne : (resolveStateW tmo now (m ip)).StepIndex ≠ i := by
        intro he; rw [he, hw] at h3; omega
      exact ⟨by dsimp only; omega, by dsimp only; omega, by dsimp only; omega⟩
    · have := hbound k st h
      exact ⟨this.1, this.2.1, by omega⟩
  · refine ⟨by simp, fun k st h => ?_⟩
    by_cases hk : k = ip <;> simp [hk] at h
    · subst h
      refine ⟨by dsimp only; omega, ?_, ?_⟩
      · dsimp only
        rw [hw]
        omega
      · dsimp only
        rw [hw]
        omega
    · have := hbound k st h
      exact ⟨this.1, this.2.1, by omega⟩
  · refine ⟨by simp, fun k st h => ?_⟩
    by_cases hk : k = ip <;> simp [hk] at h
    have := hbound k st h
    exact ⟨this.1, this.2.1, by omega⟩

/-- From a live resident state of address `a` holding the wrapped image of
`n ≥ 1` matching hits against the sequence `[{7001, Count: 0}]`, a further
`2^64 - n` matching knocks at instant 0 reach the wraparound and grant
access: the counter's wrapped value steps through `n+1, n+2, ...` modulo
`2^64` and hits `Count = 0` exactly on the last knock. -/
theorem runAllW_wrap_grant :
    ∀ (k : Nat) (m : ClientsW) (n : Nat),
      1 ≤ n → (n : Int) < 18446744073709551616 →
      (n : Int) + k = 18446744073709551616 →
      m "a" = some ⟨0, wrap64 n, 0⟩ →
      Outcome.SequenceComplete ∈
        (runAllW [⟨7001, 0⟩] 5 m (List.replicate k ("a", 7001, 0))).2 := by
  intro k
  induction k with
  | zero =>
    intro m n h1 h2 h3 hm
    exfalso
    push_cast at h3
    omega
  | succ j ih =>
    intro m n h1 h2 h3 hm
    have hres : resolveStateW 5 0 (m "a") = ⟨0, wrap64 n, 0⟩ := by
      rw [hm]; simp [resolveStateW]
    rw [List.replicate_succ, runAllW_cons]
    by_cases hj : (n : Int) + 1 = 18446744073709551616
    · have hc : wrap64 ((⟨0, wrap64 (n : Int), 0⟩ : ClientStateW).HitCount + 1) =
          (([⟨7001, 0⟩] : List KnockStep).getD
            (⟨0, wrap64 (n : Int), 0⟩ : ClientStateW).StepIndex ⟨0, 0⟩).Count := by
        show wrap64 (wrap64 (n : Int) + 1) = 0
        rw [wrap64_wrap64_add, hj]
        decide
      rw [processKnockW_sequenceComplete [⟨7001, 0⟩] 5 7001 0 hres
        (by show (0 : Nat) < 1; decide) (by show (7001 : Int) = 7001; rfl) hc
        (by show (0 : Nat) + 1 = 1; rfl)]
      simp
    · have hc : wrap64 ((⟨0, wrap64 (n : Int), 0⟩ : ClientStateW).HitCount + 1) ≠
          (([⟨7001, 0⟩] : List KnockStep).getD
            (⟨0, wrap64 (n : Int), 0⟩ : ClientStateW).StepIndex ⟨0, 0⟩).Count := by
        show wrap64 (wrap64 (n : Int) + 1) ≠ 0
        rw [wrap64_wrap64_add]
        exact wrap64_ne_zero (by omega) (by push_cast at h3; omega)
      rw [processKnockW_progressed [⟨7001, 0⟩] 5 7001 0 hres
        (by show (0 : Nat) < 1; decide) (by show (7001 : Int) = 7001; rfl) hc]
      dsimp only
      refine List.mem_cons_of_mem _ ?_
      refine ih _ (n + 1) (by omega) (by push_cast at h3 ⊢; omega)
        (by push_cast at h3 ⊢; omega) ?_
      show (some ⟨0, wrap64 (wrap64 (n : Int) + 1), 0⟩ : Option ClientStateW) =
        some ⟨0, wrap64 ((n + 1 : Nat) : Int), 0⟩
      rw [wrap64_wrap64_add]
      push_cast
      rfl

/-- C10 counterexample: with wrap-faithful counter arithmetic the claim's
"no sequence containing such a step can ever produce an access grant" is
false.  Sequence `[{7001, Count: 0}]` has its only step at `Count = 0 ≤ 0`,
yet `2^64` matching knocks from the empty tracker grant access: the counter
increments `1, 2, ...`, wraps at `2^63`, continues through the negatives,
and on the `2^64`-th knock equals `Count = 0`, completing the step. -/
theorem claim_C10_counterexample :
    ((⟨7001, 0⟩ : KnockStep).Count ≤ 0) ∧
    Outcome.SequenceComplete ∈
      (runAllW [⟨7001, 0⟩] 5 (fun _ => none)
        (List.replicate 18446744073709551616 ("a", 7001, 0))).2 := by
  refine ⟨by decide, ?_⟩
  have hsplit : (18446744073709551616 : Nat) = 18446744073709551615 + 1 := by
    norm_num
  rw [hsplit, List.replicate_succ, runAllW_cons]
  have hres : resolveStateW 5 0 ((fun _ => none : ClientsW) "a") = ⟨0, 0, 0⟩ := rfl
  rw [processKnockW_progressed [⟨7001, 0⟩] 5 7001 0 hres (by decide) (by decide)
    (by decide)]
  dsimp only
  refine List.mem_cons_of_mem _ ?_
  refine runAllW_wrap_grant 18446744073709551615 _ 1 (le_refl 1) (by norm_num)
    (by norm_num) ?_
  show (some ⟨0, wrap64 (0 + 1), 0⟩ : Option ClientStateW) =
    some ⟨0, wrap64 ((1 : Nat) : Int), 0⟩
  simp only [Nat.cast_one, zero_add]

/-- C10 amended: if step `i` of the sequence has `Count ≤ 0`, then over any
run of fewer than `2^63` knocks from a tracker map in which no resident
state has advanced past step `i` and every resident hit counter is
nonnegative and cannot reach the wrap within the run, no knock — from any
address, port or instant — ever produces a `SequenceComplete` outcome, and
no resident state ever advances past step `i`: each matching knock
increments the counter without wrapping to a value `≥ 1`, which never equals
the non-positive `Count`.  (Only at counter wraparound, after on the order
of `2^64` matching knocks, does the original unbounded claim fail, as the
counterexample shows.) -/
theorem claim_C10_nonpositive_count_never_grants (seq : List KnockStep)
    (tmo : Int) (i : Nat)
    (hi : i < seq.length) (hneg : (seq.getD i ⟨0, 0⟩).Count ≤ 0) :
    ∀ (knocks : List (String × Int × Int)) (clients : ClientsW),
      ((knocks.length : Int) < 9223372036854775808) →
      (∀ k st, clients k = some st → st.StepIndex ≤ i ∧ 0 ≤ st.HitCount ∧
        st.HitCount + (knocks.length : Int) < 9223372036854775808) →
      (∀ o ∈ (runAllW seq tmo clients knocks).2, o ≠ Outcome.SequenceComplete) ∧
      (∀ k st, (runAllW seq tmo clients knocks).1 k = some st →
        st.StepIndex ≤ i ∧ 0 ≤ st.HitCount) := by
  intro knocks
  induction knocks with
  | nil =>
    intro clients _ hbound
    exact ⟨by simp [runAllW],
      fun k st h => ⟨(hbound k st h).1, (hbound k st h).2.1⟩⟩
  | cons kn rest ih =>
    intro clients hlen hbound
    obtain ⟨ip, port, now⟩ := kn
    simp only [List.length_cons] at hlen hbound
    have hstep := processKnockW_stuck_step seq tmo i hi hneg clients ip port now
      (9223372036854775807 - ((rest.length : Int) + 1))
      (by push_cast at hlen; omega)
      (by omega)
      (fun k st h => by
        have := hbound k st h
        refine ⟨this.1, this.2.1, ?_⟩
        have h2 := this.2.2
        push_cast at h2
        omega)
    have hrec := ih (processKnockW seq tmo clients ip port now).1
      (by omega)
      (fun k st h => by
        have := hstep.2 k st h
        refine ⟨this.1, this.2.1, ?_⟩
        have h2 := this.2.2
        omega)
    constructor
    · intro o ho
      simp only [runAllW, List.mem_cons] at ho
      rcases ho with rfl | ho
      · exact hstep.1
      · exact hrec.1 o ho
    · exact hrec.2

/-- Witness for the amended C10 at a concrete input: sequence
`[{7001, 0}, {8002, 1}]` with the bad step at index 0; three matching knocks
on 7001 all come out `Progressed` (the first run outcome is not
`SequenceComplete`), and the resident state of `a` is still at step index 0
with `hitCount = 3`. -/
theorem claim_C10_nonpositive_count_never_grants_witness :
    Outcome.Progressed ∈ (runAllW [⟨7001, 0⟩, ⟨8002, 1⟩] 5 (fun _ => none)
        [("a", 7001, 0), ("a", 7001, 1), ("a", 7001, 2)]).2 ∧
    Outcome.Progressed ≠ Outcome.SequenceComplete ∧
    (⟨0, 3, 2⟩ : ClientStateW).StepIndex ≤ 0 :=
  ⟨by decide,
   (claim_C10_nonpositive_count_never_grants [⟨7001, 0⟩, ⟨8002, 1⟩] 5 0
      (by decide) (by decide)
      [("a", 7001, 0), ("a", 7001, 1), ("a", 7001, 2)] (fun _ => none)
      (by decide) (fun k st h => Option.noConfusion h)).1
     Outcome.Progressed (by decide),
   ((claim_C10_nonpositive_count_never_grants [⟨7001, 0⟩, ⟨8002, 1⟩] 5 0
      (by decide) (by decide)
      [("a", 7001, 0), ("a", 7001, 1), ("a", 7001, 2)] (fun _ => none)
      (by decide) (fun k st h => Option.noConfusion h)).2
     "a" ⟨0, 3, 2⟩ (by decide)).1⟩

end PortKnocking

namespace PortKnocking

-- The single-hit server variant (second `main` package of http.go) and its
-- refinement into the hit-count variant.

/-- `type ClientState struct { Index int; LastKnock time.Time }` of the
single-hit server variant. -/
structure ClientStateSingle where
  Index : Nat
  LastKnock : Int
deriving DecidableEq

/-- The `clients map[string]*ClientState` of the single-hit variant. -/
abbrev ClientsSingle := String → Option ClientStateSingle

/-- The hardcoded `knockSequence = []int{7001, 8002, 9003}` of the
single-hit server variant. -/
def knockSequenceSingle : List Int := [7001, 8002, 9003]

/-- The hardcoded `timeout` of the single-hit server variant
(`5 * time.Second`), in seconds. -/
def timeoutSingle : Int := 5

/-- Lookup-and-reset prologue of the single-hit variant, identical in shape
to `resolveState`. -/
def resolveStateSingle (tmo now : Int) :
    Option ClientStateSingle → ClientStateSingle
  | none => ⟨0, 0⟩
  | some s => if now - s.LastKnock > tmo then ⟨0, 0⟩ else s

/-- `processKnock` of the single-hit server variant (http.go lines
596-621): lookup, fresh start on absence or expiry, then
`expectedPort := knockSequence[state.Index]`, advance on match (deleting the
entry and granting access when the sequence is complete), delete on
mismatch.  This variant has no defensive index guard;
`knockSequence[state.Index]` would panic on an out-of-range index, so the
embedding uses `getD` and every theorem about it carries the in-range
hypothesis under which the default is never reached. -/
def processKnockSingle (seq : List Int) (tmo : Int) (clients : ClientsSingle)
    (ip : String) (port : Int) (now : Int) : ClientsSingle × Outcome :=
  let state := resolveStateSingle tmo now (clients ip)
  if port = seq.getD state.Index 0 then
    if state.Index + 1 = seq.length then
      (fun k => if k = ip then none else clients k, Outcome.SequenceComplete)
    else
      (fun k => if k = ip then some ⟨state.Index + 1, now⟩ else clients k,
       Outcome.StepComplete)
  else
    (fun k => if k = ip then none else clients k, Outcome.Mismatch)

/-- Sequential application of `processKnockSingle` to a list of knocks
`(ip, port, now)`. -/
def runAllSingle (seq : List Int) (tmo : Int) (clients : ClientsSingle) :
    List (String × Int × Int) → ClientsSingle × List Outcome
  | [] => (clients, [])
  | (ip, port, now) :: rest =>
    ((runAllSingle seq tmo (processKnockSingle seq tmo clients ip port now).1 rest).1,
     (processKnockSingle seq tmo clients ip port now).2 ::
       (runAllSingle seq tmo (processKnockSingle seq tmo clients ip port now).1 rest).2)

/-- A single-hit state viewed as a hit-count state: step index kept, hit
count 0 (a single-hit step in progress has no partial hits). -/
def liftState (s : ClientStateSingle) : ClientState := ⟨s.Index, 0, s.LastKnock⟩

/-- A single-hit tracker map viewed as a hit-count tracker map. -/
def liftClients (m : ClientsSingle) : Clients := fun k => (m k).map liftState

/-- A plain port list viewed as a hit-count sequence with
`requiredHits = 1` (`Count = 1`) for every step. -/
def liftSeq (seq : List Int) : List KnockStep := seq.map (fun p => ⟨p, 1⟩)

/-- Exit of `processKnockSingle` completing the sequence. -/
theorem processKnockSingle_sequenceComplete {clients : ClientsSingle} {ip : String}
    {st : ClientStateSingle} (seq : List Int) (tmo : Int) (port now : Int)
    (hst : resolveStateSingle tmo now (clients ip) = st)
    (hport : port = seq.getD st.Index 0)
    (hlast : st.Index + 1 = seq.length) :
    processKnockSingle seq tmo clients ip port now =
      (fun k => if k = ip then none else clients k, Outcome.SequenceComplete) := by
  unfold processKnockSingle
  dsimp only
  rw [hst, if_pos hport, if_pos hlast]

/-- Exit of `processKnockSingle` advancing past a non-final port. -/
theorem processKnockSingle_stepComplete {clients : ClientsSingle} {ip : String}
    {st : ClientStateSingle} (seq : List Int) (tmo : Int) (port now : Int)
    (hst : resolveStateSingle tmo now (clients ip) = st)
    (hport : port = seq.getD st.Index 0)
    (hlast : st.Index + 1 ≠ seq.length) :
    processKnockSingle seq tmo clients ip port now =
      (fun k => if k = ip then some ⟨st.Index + 1, now⟩ else clients k,
       Outcome.StepComplete) := by
  unfold processKnockSingle
  dsimp only
  rw [hst, if_pos hport, if_neg hlast]

/-- Exit of `processKnockSingle` on a wrong port. -/
theorem processKnockSingle_mismatch {clients : ClientsSingle} {ip : String}
    {st : ClientStateSingle} (seq : List Int) (tmo : Int) (port now : Int)
    (hst : resolveStateSingle tmo now (clients ip) = st)
    (hport : port ≠ seq.getD st.Index 0) :
    processKnockSingle seq tmo clients ip port now =
      (fun k => if k = ip then none else clients k, Outcome.Mismatch) := by
  unfold processKnockSingle
  dsimp only
  rw [hst, if_neg hport]

/-- For a non-empty sequence, the single-hit prologue yields an in-range
index whenever every resident state is in range. -/
theorem resolveStateSingle_index_lt (seq : List Int) (tmo now : Int)
    (o : Option ClientStateSingle) (hne : seq ≠ [])
    (hb : ∀ s, o = some s → s.Index < seq.length) :
    (resolveStateSingle tmo now o).Index < seq.length := by
  cases o with
  | none =>
    simp only [resolveStateSingle]
    exact List.length_pos.mpr hne
  | some s =>
    simp only [resolveStateSingle]
    split_ifs
    · exact List.length_pos.mpr hne
    · exact hb s rfl

/-- `processKnockSingle` keeps every resident index in range. -/
theorem processKnockSingle_preserves_range (seq : List Int) (tmo : Int)
    (m : ClientsSingle) (ip : String) (port now : Int)
    (hne : seq ≠ [])
    (hran : ∀ k s, m k = some s → s.Index < seq.length) :
    ∀ k s, (processKnockSingle seq tmo m ip port now).1 k = some s →
      s.Index < seq.length := by
  have hidx := resolveStateSingle_index_lt seq tmo now (m ip) hne
    (fun s h => hran ip s h)
  intro k s h
  unfold processKnockSingle at h
  dsimp only at h
  split_ifs at h with h1 h2
  · by_cases hk : k = ip <;> simp [hk] at h
    exact hran k s h
  · by_cases hk : k = ip <;> simp [hk] at h
    · subst h
      dsimp only
      omega
    · exact hran k s h
  · by_cases hk : k = ip <;> simp [hk] at h
    exact hran k s h

/-- One knock processed by the hit-count variant on the lifted sequence and
lifted map is exactly the lift of the same knock processed by the single-hit
variant: same outcome, and the resulting maps correspond under `liftClients`. -/
theorem processKnock_lift (seq : List Int) (tmo : Int)
    (m : ClientsSingle) (ip : String) (port now : Int)
    (hne : seq ≠ [])
    (hran : ∀ k s, m k = some s → s.Index < seq.length) :
    processKnock (liftSeq seq) tmo (liftClients m) ip port now =
      (liftClients (processKnockSingle seq tmo m ip port now).1,
       (processKnockSingle seq tmo m ip port now).2) := by
  have hlen : (liftSeq seq).length = seq.length := List.length_map _ _
  have hres : resolveState tmo now (liftClients m ip) =
      liftState (resolveStateSingle tmo now (m ip)) := by
    cases h : m ip with
    | none => simp [liftClients, h, resolveState, resolveStateSingle, liftState]
    | some s =>
      rw [show liftClients m ip = some (liftState s) by simp [liftClients, h]]
      simp only [resolveState, resolveStateSingle]
      rw [apply_ite liftState]
      simp only [liftState]
  have hidx := resolveStateSingle_index_lt seq tmo now (m ip) hne
    (fun s h => hran ip s h)
  have hstep : (liftSeq seq).getD (resolveStateSingle tmo now (m ip)).Index ⟨0, 0⟩ =
      ⟨seq.getD (resolveStateSingle tmo now (m ip)).Index 0, 1⟩ := by
    rw [List.getD_eq_getElem _ _ (by rw [hlen]; exact hidx),
      List.getD_eq_getElem _ _ hidx]
    simp [liftSeq]
  have hguardL : (liftState (resolveStateSingle tmo now (m ip))).StepIndex <
      (liftSeq seq).length := by
    simp only [liftState, hlen]
    exact hidx
  by_cases hp : port = seq.getD (resolveStateSingle tmo now (m ip)).Index 0
  · by_cases hl : (resolveStateSingle tmo now (m ip)).Index + 1 = seq.length
    · rw [processKnock_sequenceComplete (liftSeq seq) tmo port now hres hguardL
        (by simp only [liftState]; rw [hstep]; exact hp)
        (by simp only [liftState]; rw [hstep]; simp)
        (by simp only [liftState, hlen]; exact hl),
        processKnockSingle_sequenceComplete seq tmo port now rfl hp hl]
      refine Prod.ext ?_ rfl
      funext k
      by_cases hk : k = ip <;> simp [hk, liftClients]
    · rw [processKnock_stepComplete (liftSeq seq) tmo port now hres hguardL
        (by simp only [liftState]; rw [hstep]; exact hp)
        (by simp only [liftState]; rw [hstep]; simp)
        (by simp only [liftState, hlen]; exact hl),
        processKnockSingle_stepComplete seq tmo port now rfl hp hl]
      refine Prod.ext ?_ rfl
      funext k
      by_cases hk : k = ip <;> simp [hk, liftClients, liftState]
  · rw [processKnock_mismatch (liftSeq seq) tmo port now hres hguardL
        (by simp only [liftState]; rw [hstep]; exact hp),
      processKnockSingle_mismatch seq tmo port now rfl hp]
    refine Prod.ext ?_ rfl
    funext k
    by_cases hk : k = ip <;> simp [hk, liftClients]

/-- C6: for a non-empty sequence of pairwise-distinct single-hit ports and
the same timeout, any run of knocks processed by the hit-count variant on
the lifted sequence (`Count = 1` per step) from the lifted map produces the
same outcome trace — hence the same access-grant decisions — and a final
map that is the lift of the single-hit variant's final map, so creation,
advancement, reset and removal of resident state coincide: the
`requiredHits` model with default 1 subsumes the single-hit variant. -/
theorem claim_C6_single_hit_variant_subsumed (seq : List Int) (tmo : Int)
    (hne : seq ≠ []) (_hnd : seq.Nodup) :
    ∀ (knocks : List (String × Int × Int)) (m : ClientsSingle),
      (∀ k s, m k = some s → s.Index < seq.length) →
      (runAll (liftSeq seq) tmo (liftClients m) knocks).2 =
        (runAllSingle seq tmo m knocks).2 ∧
      (runAll (liftSeq seq) tmo (liftClients m) knocks).1 =
        liftClients (runAllSingle seq tmo m knocks).1 := by
  intro knocks
  induction knocks with
  | nil => intro m hran; exact ⟨rfl, rfl⟩
  | cons kn rest ih =>
    intro m hran
    obtain ⟨ip, port, now⟩ := kn
    have hcall := processKnock_lift seq tmo m ip port now hne hran
    have hrec := ih (processKnockSingle seq tmo m ip port now).1
      (processKnockSingle_preserves_range seq tmo m ip port now hne hran)
    simp only [runAll, runAllSingle, hcall]
    exact ⟨by rw [hrec.1], hrec.2⟩

/-- Witness for C6 at a concrete input: the single-hit variant's own
configured sequence, a full successful run from the empty map. -/
theorem claim_C6_single_hit_variant_subsumed_witness :
    knockSequenceSingle ≠ [] ∧ knockSequenceSingle.Nodup ∧
    (runAll (liftSeq knockSequenceSingle) 5 (liftClients (fun _ => none))
        [("a", 7001, 0), ("a", 8002, 1), ("a", 9003, 2)]).2 =
      (runAllSingle knockSequenceSingle 5 (fun _ => none)
        [("a", 7001, 0), ("a", 8002, 1), ("a", 9003, 2)]).2 :=
  ⟨by decide, by decide,
   (claim_C6_single_hit_variant_subsumed knockSequenceSingle 5 (by decide)
      (by decide) [("a", 7001, 0), ("a", 8002, 1), ("a", 9003, 2)]
      (fun _ => none) (fun k s h => Option.noConfusion h)).1⟩

end PortKnocking

namespace PortKnocking

-- The `server` startup of both variants: which ports get a `handleKnock`
-- accept loop.

/-- The set of ports the hit-count `server` binds (http.go lines 533-546):
`unPorts := make(map[int]struct{}); for _, step := range knockSequence {
unPorts[step.Port] = struct{}{} }; for port := range unPorts { go
handleKnock(port) }` — one accept loop per key of the map, i.e. per element
of this set. -/
def unPorts (seq : List KnockStep) : Finset Int :=
  seq.foldl (fun s st => insert st.Port s) ∅

/-- The ports the single-hit `server` binds (http.go lines 623-629): one
`handleKnock` goroutine per element of its `knockSequence` list. -/
def serverPortsSingle : List Int := knockSequenceSingle

/-- Folding `insert`-of-port over a step list from any starting set yields
the union with the set of ports of the list. -/
theorem unPorts_foldl (l : List KnockStep) (s : Finset Int) :
    l.foldl (fun a st => insert st.Port a) s =
      s ∪ (l.map KnockStep.Port).toFinset := by
  induction l generalizing s with
  | nil => simp
  | cons x l ih =>
    simp only [List.foldl_cons, List.map_cons, List.toFinset_cons]
    rw [ih (insert x.Port s), Finset.insert_union, Finset.union_insert]

/-- C8: the hit-count `server` starts exactly one passive listener per
distinct port value appearing in the knock sequence, not one per step: the
set of bound ports (a `Finset`, so each port at most once) equals the set of
distinct ports referenced by the sequence, and a port is bound iff some step
references it.  The single-hit `server` binds one listener per element of
its hardcoded sequence, whose ports are pairwise distinct, so it too binds
each referenced port exactly once. -/
theorem claim_C8_one_listener_per_distinct_port :
    (∀ seq : List KnockStep, unPorts seq = (seq.map KnockStep.Port).toFinset) ∧
    (∀ (seq : List KnockStep) (p : Int),
      p ∈ unPorts seq ↔ ∃ st ∈ seq, st.Port = p) ∧
    serverPortsSingle.Nodup ∧ serverPortsSingle = knockSequenceSingle := by
  have h : ∀ seq : List KnockStep,
      unPorts seq = (seq.map KnockStep.Port).toFinset := by
    intro seq
    unfold unPorts
    rw [unPorts_foldl]
    simp
  refine ⟨h, fun seq p => ?_, by decide, rfl⟩
  rw [h seq]
  simp [List.mem_map]

end PortKnocking

namespace PortKnocking

-- The knock client (client.go).

/-- One observable event of the client: a connection attempt (one
`net.DialTimeout` by `knock`), with `dialOk` recording whether the dial
succeeded, or a `time.Sleep` of the given milliseconds. -/
inductive ClientEvent
  | dial (port : Int) (dialOk : Bool)
  | sleep (ms : Nat)
deriving DecidableEq

/-- The environment's outcome of one `knock` call (client.go lines 9-17):
* `dialErr` — `net.DialTimeout` returns an error; `knock` ignores it and
  returns (no retry, nothing to close);
* `closed` — the dial succeeds and `conn.Close()` returns nil;
* `closeErr` — the dial succeeds but `conn.Close()` returns an error, which
  `knock` turns into a run-time panic, aborting the whole client: no further
  knocks or sleeps happen. -/
inductive DialResult
  | dialErr
  | closed
  | closeErr
deriving DecidableEq

/-- The hardcoded flat knock list of the client
(`knockSeqPorts := []int{7001, 7001, 7001, 8002, 9003, 9003}`). -/
def knockSeqPorts : List Int := [7001, 7001, 7001, 8002, 9003, 9003]

/-- The client's fixed inter-knock delay (`time.Sleep(500 * time.Millisecond)`). -/
def interKnockDelayMs : Nat := 500

/-- The client loop `for _, port := range knockSeqPorts { knock(serverIP,
port); time.Sleep(...) }`: one dial per list entry, then the fixed sleep.
`conn i` gives the outcome of the `i`-th `knock` call.  A failed dial is
ignored and never retried; a successful dial whose `Close` also succeeds is
followed by the sleep and the next iteration; a `Close` error panics
(client.go lines 13-15), so the loop stops right after that dial — the
returned flag records whether the run ended in this panic. -/
def clientLoop (conn : Nat → DialResult) :
    List Int → Nat → List ClientEvent × Bool
  | [], _ => ([], false)
  | p :: ps, i =>
    match conn i with
    | DialResult.dialErr =>
      (ClientEvent.dial p false :: ClientEvent.sleep interKnockDelayMs ::
        (clientLoop conn ps (i + 1)).1, (clientLoop conn ps (i + 1)).2)
    | DialResult.closed =>
      (ClientEvent.dial p true :: ClientEvent.sleep interKnockDelayMs ::
        (clientLoop conn ps (i + 1)).1, (clientLoop conn ps (i + 1)).2)
    | DialResult.closeErr =>
      ([ClientEvent.dial p true], true)

/-- The full event trace of the `client` function, with the flag telling
whether the run was aborted by the `Close`-error panic. -/
def clientTrace (conn : Nat → DialResult) : List ClientEvent × Bool :=
  clientLoop conn knockSeqPorts 0

/-- The ports dialled in a trace, in order. -/
def dialPorts : List ClientEvent → List Int
  | [] => []
  | ClientEvent.dial p _ :: rest => p :: dialPorts rest
  | ClientEvent.sleep _ :: rest => dialPorts rest

/-- The sleep durations of a trace, in order. -/
def sleepDurations : List ClientEvent → List Nat
  | [] => []
  | ClientEvent.dial _ _ :: rest => sleepDurations rest
  | ClientEvent.sleep m :: rest => m :: sleepDurations rest

/-- The per-step expansion of a hit-count sequence: `requiredHits` copies of
each step's port, in step order. -/
def expandSequence : List KnockStep → List Int
  | [] => []
  | s :: rest => List.replicate s.Count.toNat s.Port ++ expandSequence rest

/-- C9 counterexample: the attempt schedule is NOT independent of the
outcome of each individual connection attempt.  If the first connection
succeeds but its `Close` returns an error, `knock` panics (client.go lines
13-15) and the client aborts: only one attempt is made, against the six of a
run whose closes all succeed — the schedule truncates with the outcome. -/
theorem claim_C9_counterexample :
    dialPorts (clientTrace
        (fun i => if i = 0 then DialResult.closeErr else DialResult.closed)).1 =
      [7001] ∧
    (clientTrace
        (fun i => if i = 0 then DialResult.closeErr else DialResult.closed)).2 =
      true ∧
    dialPorts (clientTrace (fun _ => DialResult.closed)).1 =
      expandSequence knockSequence ∧
    dialPorts (clientTrace
        (fun i => if i = 0 then DialResult.closeErr else DialResult.closed)).1 ≠
      dialPorts (clientTrace (fun _ => DialResult.closed)).1 := by
  decide

/-- As long as no `Close` error occurs, the client loop emits exactly one
dial per configured port, in order, each followed by the fixed sleep, and
does not panic — independently of which dials succeed or fail. -/
theorem clientLoop_no_close_error (conn : Nat → DialResult)
    (h : ∀ i, conn i ≠ DialResult.closeErr) :
    ∀ (ps : List Int) (i : Nat),
      dialPorts (clientLoop conn ps i).1 = ps ∧
      sleepDurations (clientLoop conn ps i).1 =
        List.replicate ps.length interKnockDelayMs ∧
      (clientLoop conn ps i).2 = false := by
  intro ps
  induction ps with
  | nil => intro i; exact ⟨rfl, rfl, rfl⟩
  | cons p ps ih =>
    intro i
    obtain ⟨h1, h2, h3⟩ := ih (i + 1)
    cases hc : conn i with
    | dialErr =>
      simp [clientLoop, hc, dialPorts, sleepDurations, h1, h2, h3,
        List.replicate_succ]
    | closed =>
      simp [clientLoop, hc, dialPorts, sleepDurations, h1, h2, h3,
        List.replicate_succ]
    | closeErr => exact absurd hc (h i)

/-- C9 amended: provided no `conn.Close()` call returns an error (a `Close`
error panics and aborts the client, truncating the remaining attempts), the
client dials exactly the per-step expansion of the configured sequence
`[{7001, 3}, {8002, 1}, {9003, 2}]` — `requiredHits` attempts per step, in
step order: 7001, 7001, 7001, 8002, 9003, 9003 — with the fixed 500 ms
delay after each attempt (hence between any two consecutive attempts), never
retries a failed dial, and the number and order of attempts are independent
of which dials succeed or fail. -/
theorem claim_C9_client_dials_expansion_without_close_error
    (conn conn2 : Nat → DialResult)
    (h : ∀ i, conn i ≠ DialResult.closeErr)
    (h2 : ∀ i, conn2 i ≠ DialResult.closeErr) :
    dialPorts (clientTrace conn).1 = expandSequence knockSequence ∧
    (clientTrace conn).2 = false ∧
    dialPorts (clientTrace conn).1 = dialPorts (clientTrace conn2).1 ∧
    sleepDurations (clientTrace conn).1 =
      List.replicate 6 interKnockDelayMs := by
  obtain ⟨a1, a2, a3⟩ := clientLoop_no_close_error conn h knockSeqPorts 0
  obtain ⟨b1, b2, b3⟩ := clientLoop_no_close_error conn2 h2 knockSeqPorts 0
  refine ⟨?_, a3, ?_, ?_⟩
  · show dialPorts (clientLoop conn knockSeqPorts 0).1 = expandSequence knockSequence
    rw [a1]; decide
  · show dialPorts (clientLoop conn knockSeqPorts 0).1 =
      dialPorts (clientLoop conn2 knockSeqPorts 0).1
    rw [a1, b1]
  · show sleepDurations (clientLoop conn knockSeqPorts 0).1 =
      List.replicate 6 interKnockDelayMs
    rw [a2]
    rfl

/-- Witness for the amended C9 at concrete inputs: an all-successful run and
an all-dial-failed run both dial the full expansion, with no panic. -/
theorem claim_C9_client_dials_expansion_without_close_error_witness :
    dialPorts (clientTrace (fun _ => DialResult.closed)).1 =
      expandSequence knockSequence ∧
    (clientTrace (fun _ => DialResult.closed)).2 = false ∧
    dialPorts (clientTrace (fun _ => DialResult.closed)).1 =
      dialPorts (clientTrace (fun _ => DialResult.dialErr)).1 :=
  ⟨(claim_C9_client_dials_expansion_without_close_error
      (fun _ => DialResult.closed) (fun _ => DialResult.dialErr)
      (fun _ h => DialResult.noConfusion h)
      (fun _ h => DialResult.noConfusion h)).1,
   (claim_C9_client_dials_expansion_without_close_error
      (fun _ => DialResult.closed) (fun _ => DialResult.dialErr)
      (fun _ h => DialResult.noConfusion h)
      (fun _ h => DialResult.noConfusion h)).2.1,
   (claim_C9_client_dials_expansion_without_close_error
      (fun _ => DialResult.closed) (fun _ => DialResult.dialErr)
      (fun _ h => DialResult.noConfusion h)
      (fun _ h => DialResult.noConfusion h)).2.2.1⟩

end PortKnocking
